import Mathlib

/-!
Verification of the telemetry reconstruction and delivery core of replay-cli.

The development shallowly embeds two source regions:

* the Cypress step aggregator (`groupStepsByTest`, `shouldSkipStep`,
  `assertMatchingStep`, `toRelativeTime` and friends from the Cypress
  support package), and
* the retry / backoff / bounded-concurrency helpers (`retry`,
  `geometricBackoff`, `jitter`, `concurrentWithRetry` from the CLI utils).

Modelling conventions:

* Timestamps are ISO-8601 strings in the source, sorted with
  `localeCompare` and converted with `Date.getTime`.  On equal-length ISO
  strings both orders coincide with the chronological one, so timestamps
  are modelled as natural numbers and both the comparator and `toTime`
  read that number.  JavaScript's `Array.prototype.sort` is stable
  (ES2019); it is modelled by a stable insertion sort.
* Step arguments (`any[]` in the source) are modelled by the inductive
  `Arg`: `nullArg` for `null`/`undefined`, `prim` for primitives, and
  `obj b` for object values where `b` records whether the object carries
  an own `log: false` marker (the only property the aggregator reads).
  The sanitized `{}` placeholder is `obj false`.
* JavaScript exceptions are modelled with `Except AggError`; the
  non-null assertion `step.command!` on a missing command is the
  `typeError` outcome.
* Truthiness tests on strings (`if (step.command?.id)`) are modelled as
  present-and-nonempty, since the empty string is falsy.
* The aggregator mutates `Test`/`TestStep` objects through references
  held both by `tests` and by the step stack; the model stores explicit
  `(testIdx, stepIdx)` paths into the `tests` array instead of aliased
  references, and every mutation is routed through those paths.
* `Array.prototype.toString` equality on test paths is modelled as list
  equality (faithful for path components without embedded commas).
-/

namespace ReplayCli

/-- A step-command argument, as far as the aggregator inspects it. -/
inductive Arg
  | nullArg
  | prim (s : String)
  | obj (logFalse : Bool)
deriving DecidableEq, Repr

/-- A test error payload; the aggregator copies it verbatim. -/
structure TestError where
  message : String
deriving DecidableEq, Repr

/-- The `command` descriptor carried by step events. -/
structure Command where
  id : String
  groupId : Option String
  commandId : Option String
  name : String
  args : List Arg
deriving DecidableEq, Repr

/-- The `event` discriminator strings of `StepEvent`. -/
inductive EventKind
  | enqueue    -- "step:enqueue"
  | start      -- "step:start"
  | stepEnd    -- "step:end"
  | testStart  -- "test:start"
  | testEnd    -- "test:end"
deriving DecidableEq, Repr

/-- A raw instrumentation event (`StepEvent` in the source). -/
structure StepEvent where
  event : EventKind
  timestamp : Nat
  test : List String
  file : String
  command : Option Command
  category : Option String
  hook : Option String
  error : Option TestError
deriving DecidableEq, Repr

/-- A reconstructed step (`TestStep` from test-utils). -/
structure TestStep where
  id : String
  parentId : Option String
  name : String
  args : List Arg
  commandId : Option String
  relativeStartTime : Int
  category : String
  hook : Option String
  duration : Option Int := none
  error : Option TestError := none
  assertIds : List String := []
deriving DecidableEq, Repr

/-- A reconstructed test (`Test` from test-utils). -/
structure Test where
  title : String
  path : List String
  result : String
  relativePath : String
  relativeStartTime : Int
  steps : List TestStep
  duration : Option Int := none
deriving DecidableEq, Repr

instance : Inhabited Test :=
  ⟨{ title := "", path := [], result := "", relativePath := "",
     relativeStartTime := 0, steps := [] }⟩

/-- A `StepStackItem`: the source stores the step object itself; the model
stores the `(testIdx, stepIdx)` path of that object inside the tests
array, which is how the aliased reference is realised here. -/
structure StackItem where
  event : StepEvent
  testIdx : Nat
  stepIdx : Nat
deriving DecidableEq, Repr

/-- The exceptions `groupStepsByTest` can throw. -/
inductive AggError
  | currentTestMissing   -- assertCurrentTest
  | mismatchedStep       -- assertMatchingStep
  | typeError            -- reading a field of an absent command
deriving DecidableEq, Repr

/-- The transient aggregation state threaded through the event walk. -/
structure AggState where
  tests : List Test
  stepStack : List StackItem
  skippedStepIds : List String
  activeGroup : Option (String × String)  -- (groupId, parentId)
  currentTest : Option Nat                -- index of the current Test
deriving DecidableEq, Repr

/-- `toRelativeTime`: event time minus a start time. -/
def toRelativeTime (timestamp : Nat) (startTime : Int) : Int :=
  (timestamp : Int) - startTime

/-- Modelled from the spec: the afterEach-hook marker (`AFTER_EACH_HOOK`
from the Cypress plugin constants module, which is not under src).  The
aggregator only ever compares `step.test[0]` against it, so its exact
text is irrelevant; the spec calls it the afterEach-equivalent hook
marker. -/
def AFTER_EACH_HOOK : String := "afterEach hook"

/-- Argument sanitisation: object arguments are replaced by `{}` (here
`Arg.obj false`); `null` and primitives pass through, because `null` is
falsy in the `a && typeof a === "object"` test. -/
def sanitizeArg : Arg → Arg
  | .obj _ => .obj false
  | a => a

/-- `step.category || "other"`: the empty string is falsy. -/
def categoryOf (step : StepEvent) : String :=
  match step.category with
  | some s => if s = "" then "other" else s
  | none => "other"

/-- Update the element at index `i` in place, if it exists. -/
def modifyAt (l : List α) (i : Nat) (f : α → α) : List α :=
  match l[i]? with
  | some a => l.set i (f a)
  | none => l

/-- `shouldSkipStep`: skip when the last positional argument is an object
with `log: false`, or when the command id or its group id was already
recorded as skipped. -/
def shouldSkipStep (step : StepEvent) (skippedSteps : List String) : Bool :=
  let lastArg := step.command.bind fun c => c.args.getLast?
  (match lastArg with
   | some (.obj true) => true
   | _ => false)
  || (match step.command with
      | some c => skippedSteps.contains c.id
      | none => false)
  || (match step.command.bind (·.groupId) with
      | some g => skippedSteps.contains g
      | none => false)

/-- Resolve `testForStep`: the first seeded test whose title equals the
last element of the event's test path (`tests.find` keyed on title). -/
def findTestForStep (tests : List Test) (step : StepEvent) : Option Nat :=
  match step.test.getLast? with
  | none => none
  | some s => tests.findIdx? fun t => t.title == s

/-- The per-event prologue: re-resolve the current test and clear the
active group whenever the resolved test differs from the previous one. -/
def resolveState (s : AggState) (step : StepEvent) : AggState :=
  let testForStep := findTestForStep s.tests step
  { s with
    activeGroup := if s.currentTest = testForStep then s.activeGroup else none,
    currentTest := testForStep }

/-- Read the test the index points at (indices produced by
`findTestForStep` are always in range; the default is never reached from
`groupStepsByTest`). -/
def getTest (s : AggState) (ti : Nat) : Test :=
  (s.tests[ti]?).getD default

/-- The ids recorded as skipped by the skip branch of `step:start`:
the command id and the group id, each when present and truthy. -/
def skipAdditions (step : StepEvent) : List String :=
  (match step.command with
   | some c => if c.id ≠ "" then [c.id] else []
   | none => [])
  ++ (match step.command.bind (·.groupId) with
      | some g => if g ≠ "" then [g] else []
      | none => [])

/-- The `(parentId, activeGroup)` resolution of a non-skipped
`step:start`: reuse the active group's parent when the group ids match,
else open a new group when the event declares a (truthy) group id. -/
def resolveGroup (s : AggState) (c : Command) :
    Option String × Option (String × String) :=
  match s.activeGroup, c.groupId with
  | some (g, p), some g2 =>
    if g2 = g then (some p, some (g, p))
    else if g2 ≠ "" then (none, some (g2, c.id)) else (none, some (g, p))
  | some (g, p), none => (none, some (g, p))
  | none, some g2 => if g2 ≠ "" then (none, some (g2, c.id)) else (none, none)
  | none, none => (none, none)

/-- The step created by a non-skipped `step:start`. -/
def buildStep (ft : Int) (s : AggState) (ti : Nat) (step : StepEvent) (c : Command) :
    TestStep :=
  { id := c.id
    parentId := (resolveGroup s c).1
    name := c.name
    args := c.args.map sanitizeArg
    commandId := c.commandId
    relativeStartTime :=
      toRelativeTime step.timestamp ft - (getTest s ti).relativeStartTime
    category := categoryOf step
    hook := step.hook }

/-- The assertIds back-link update: when the start event carries a truthy
`commandId`, the first step with that id (if any) gains this step's id in
its `assertIds`. -/
def linkAssert (tests : List Test) (ti : Nat) (c : Command) : List Test :=
  match c.commandId with
  | some cid =>
    if cid ≠ "" then
      modifyAt tests ti fun t =>
        match t.steps.findIdx? (fun st => st.id == cid) with
        | some j =>
          { t with steps := modifyAt t.steps j fun st =>
              { st with assertIds := st.assertIds ++ [c.id] } }
        | none => t
    else tests
  | none => tests

/-- The state produced by a non-skipped `step:start`. -/
def startInsert (ft : Int) (s : AggState) (ti : Nat) (step : StepEvent) (c : Command) :
    AggState :=
  let testStep := buildStep ft s ti step c
  let tests1 := linkAssert s.tests ti c
  let stepIdx := ((tests1[ti]?).map fun t => t.steps.length).getD 0
  let tests2 := modifyAt tests1 ti fun t => { t with steps := t.steps ++ [testStep] }
  { s with
      tests := tests2
      stepStack := s.stepStack ++ [⟨step, ti, stepIdx⟩]
      activeGroup := (resolveGroup s c).2 }

/-- The `step:start` branch of the event walk. -/
def processStart (ft : Int) (s : AggState) (ti : Nat) (step : StepEvent) :
    Except AggError AggState :=
  if shouldSkipStep step s.skippedStepIds then
    .ok { s with skippedStepIds := s.skippedStepIds ++ skipAdditions step }
  else
    match step.command with
    | none => .error .typeError
    | some c => .ok (startInsert ft s ti step c)

/-- The `stepStack.find` of the `step:end` branch: first stack item whose
referenced step has the event's command id and whose start event has the
same test path. -/
def findMatchingStep (s : AggState) (step : StepEvent) (c : Command) :
    Option StackItem :=
  s.stepStack.find? fun item =>
    (match s.tests[item.testIdx]? with
     | some t =>
       match t.steps[item.stepIdx]? with
       | some st => st.id == c.id
       | none => false
     | none => false)
    && (item.event.test == step.test)

/-- The in-place update a matched `step:end` applies to its step: replace
the args when the end command is an assert, then set the clamped duration
and overwrite the error unconditionally. -/
def endStepUpdate (ft : Int) (s : AggState) (ti : Nat) (step : StepEvent) (c : Command)
    (st : TestStep) : TestStep :=
  let st1 := if c.name == "assert" then { st with args := c.args } else st
  let relativeEndTime :=
    toRelativeTime step.timestamp ft - (getTest s ti).relativeStartTime
  { st1 with
      duration := some (max 0 (relativeEndTime - st1.relativeStartTime))
      error := step.error }

/-- The state produced by a matched `step:end`. -/
def endUpdate (ft : Int) (s : AggState) (ti : Nat) (step : StepEvent) (c : Command)
    (item : StackItem) : AggState :=
  { s with
      tests := modifyAt s.tests item.testIdx fun t =>
        { t with steps := modifyAt t.steps item.stepIdx (endStepUpdate ft s ti step c) } }

/-- The `step:end` branch of the event walk. -/
def processEnd (ft : Int) (s : AggState) (ti : Nat) (step : StepEvent) :
    Except AggError AggState :=
  match step.command with
  | none => .error .typeError
  | some c =>
    let lastStep := findMatchingStep s step c
    if lastStep.isNone && s.skippedStepIds.contains c.id then
      .ok s
    else if step.test.head? == some AFTER_EACH_HOOK then
      .ok s
    else
      match lastStep with
      | none => .error .mismatchedStep
      | some item =>
        match item.event.command with
        | none => .error .mismatchedStep
        | some pc =>
          if pc.id ≠ c.id then .error .mismatchedStep
          else .ok (endUpdate ft s ti step c item)

/-- The state produced by a `test:end` event: record the current test's
(unclamped) duration. -/
def testEndUpdate (ft : Int) (s : AggState) (ti : Nat) (step : StepEvent) : AggState :=
  { s with tests := modifyAt s.tests ti fun t =>
      { t with duration := some (toRelativeTime step.timestamp ft - t.relativeStartTime) } }

/-- One iteration of the sorted-event walk of `groupStepsByTest`. -/
def processEvent (ft : Int) (s0 : AggState) (step : StepEvent) :
    Except AggError AggState :=
  let s := resolveState s0 step
  match s.currentTest with
  | none => .error .currentTestMissing
  | some ti =>
    match step.event with
    | .enqueue => .ok s
    | .testStart => .ok s
    | .start => processStart ft s ti step
    | .stepEnd => processEnd ft s ti step
    | .testEnd => .ok (testEndUpdate ft s ti step)

/-- Stable insertion of an event into a timestamp-sorted list: the
inserted event precedes later-arriving events with an equal timestamp. -/
def insertByTs (a : StepEvent) : List StepEvent → List StepEvent
  | [] => [a]
  | b :: l => if a.timestamp ≤ b.timestamp then a :: b :: l else b :: insertByTs a l

/-- The stable timestamp sort performed on the event list. -/
def sortByTimestamp : List StepEvent → List StepEvent
  | [] => []
  | a :: l => insertByTs a (sortByTimestamp l)

/-- Seed one `Test` from a `test:start` event. -/
def seedTest (ft : Int) (step : StepEvent) : Test :=
  let t := step.test.getLastD ""
  { title := if t = "" then step.file else t
    path := step.test
    result := "passed"
    relativePath := step.file
    relativeStartTime := toRelativeTime step.timestamp ft
    steps := [] }

/-- The aggregation state before the event walk: one seeded test per
`test:start` event of the sorted list, empty stack, skip set and group. -/
def initialState (sortedSteps : List StepEvent) (ft : Int) : AggState :=
  { tests := (sortedSteps.filter fun a => a.event == .testStart).map (seedTest ft)
    stepStack := []
    skippedStepIds := []
    activeGroup := none
    currentTest := none }

/-- `groupStepsByTest`: sort the events by timestamp, seed one test per
`test:start` event, then walk the sorted events once. -/
def groupStepsByTest (steps : List StepEvent) (firstTimestamp : Int) :
    Except AggError (List Test) :=
  if steps.length = 0 then .ok []
  else
    Except.map (fun s => s.tests)
      ((sortByTimestamp steps).foldlM (processEvent firstTimestamp)
        (initialState (sortByTimestamp steps) firstTimestamp))

/-! ## Retry executor and backoff policies

`Math.random() * 100.0` produces a jitter in `[0, 100)`; the model takes
the jitter as an explicit rational parameter so that delays are exact
values.  `retry` is an asynchronous loop; the model runs the loop
synchronously over a function `fn` giving the outcome of each 1-based
attempt and records a trace: the produced result, the number of attempts
made, the failures passed to `onFail` in order, and the waits requested
from the backoff strategy in order. -/

/-- `jitter()`: a random extra delay under 100 ms, taken as a parameter. -/
def jitter (j : ℚ) : ℚ := j

/-- `geometricBackoff(iteration) = 2 ** iteration * 100 + jitter()`. -/
def geometricBackoff (iteration : Nat) (j : ℚ) : ℚ :=
  2 ^ iteration * 100 + jitter j

/-- `linearBackoff() = 100 + jitter()`. -/
def linearBackoff (j : ℚ) : ℚ := 100 + jitter j

/-- `MAX_ATTEMPTS = 5`. -/
def MAX_ATTEMPTS : Nat := 5

instance {E A : Type} [DecidableEq E] [DecidableEq A] : DecidableEq (Except E A) := fun a b =>
  match a, b with
  | .ok x, .ok y =>
    if h : x = y then isTrue (by rw [h]) else isFalse (by intro hh; cases hh; exact h rfl)
  | .error x, .error y =>
    if h : x = y then isTrue (by rw [h]) else isFalse (by intro hh; cases hh; exact h rfl)
  | .ok _, .error _ => isFalse (by intro hh; cases hh)
  | .error _, .ok _ => isFalse (by intro hh; cases hh)

/-- The observable behaviour of one `retry` call.  `result = none` marks
the states the source cannot reach (the post-loop
`throw Error("ShouldBeUnreachable")`, and fuel exhaustion in the model). -/
structure RetryTrace (E A : Type) where
  result : Option (Except E A)
  attempts : Nat
  failures : List E
  delays : List ℚ
deriving DecidableEq, Repr

/-- The `while (currentAttempt <= MAX_ATTEMPTS)` loop of `retry`.  `ca`
is `currentAttempt` before the increment; the fuel bounds the loop and is
chosen large enough in `retry` that it never runs out. -/
def retryAux (fn : Nat → Except E A) (backoff : Nat → ℚ) :
    Nat → Nat → RetryTrace E A
  | 0, _ => ⟨none, 0, [], []⟩
  | fuel + 1, ca =>
    if ca ≤ MAX_ATTEMPTS then
      let n := ca + 1
      match fn n with
      | .ok a => ⟨some (.ok a), 1, [], []⟩
      | .error e =>
        if n = MAX_ATTEMPTS then ⟨some (.error e), 1, [e], []⟩
        else
          let rest := retryAux fn backoff fuel n
          ⟨rest.result, rest.attempts + 1, e :: rest.failures, backoff n :: rest.delays⟩
    else ⟨none, 0, [], []⟩

/-- `retry(fn, backOffStrategy, onFail)`: attempt `fn`, and on failure
report to `onFail`, rethrow on the `MAX_ATTEMPTS`-th attempt, otherwise
wait `backOffStrategy(currentAttempt)` and go round again. -/
def retry (fn : Nat → Except E A) (backoff : Nat → ℚ) : RetryTrace E A :=
  retryAux fn backoff (MAX_ATTEMPTS + 1) 0

/-! ## Bounded dispatcher

`concurrentWithRetry` interleaves tasks cooperatively: the loop launches
the next task while fewer than `concurrencyLimit` promises are active and
otherwise waits for `Promise.race(activePromises)`; afterwards it waits
for `Promise.all`.  The model identifies the i-th task with the value
`task i` it eventually produces (through its retry wrapper), and takes a
schedule `σ`: at the k-th race, the `(σ k % active.length)`-th active
task is the one that settles.  A task's completion writes its result at
its own index (`results[taskIndex] = result`).  `Promise.race([])` never
settles, so reaching a race with no active promise yields `none` (the
call never returns); the fuel merely bounds the loop and is chosen in
`concurrentWithRetry` so that it cannot run out first. -/

def dispatchLoop (task : Nat → α) (n limit : Nat) (σ : Nat → Nat) :
    Nat → Nat → Nat → List Nat → List (Option α) → Option (List (Option α))
  | 0, _, _, _, _ => none
  | fuel + 1, k, taskIndex, active, results =>
    if taskIndex < n then
      if active.length < limit then
        dispatchLoop task n limit σ fuel k (taskIndex + 1) (active ++ [taskIndex]) results
      else
        match active with
        | [] => none
        | a :: rest =>
          let c := (a :: rest).get ⟨σ k % (a :: rest).length, Nat.mod_lt _ (Nat.succ_pos _)⟩
          dispatchLoop task n limit σ fuel (k + 1) taskIndex
            ((a :: rest).erase c) (results.set c (some (task c)))
    else
      some (active.foldl (fun res i => res.set i (some (task i))) results)

/-- `concurrentWithRetry(tasks, concurrencyLimit)` for `n` tasks whose
i-th eventual result is `task i`, under completion schedule `σ`.  The
loop makes at most `n` launches and `n` completions, so `2 * n + 1` fuel
never runs out. -/
def concurrentWithRetry (task : Nat → α) (n limit : Nat) (σ : Nat → Nat) :
    Option (List (Option α)) :=
  dispatchLoop task n limit σ (2 * n + 1) 0 0 [] (List.replicate n none)

/-! ## Helper lemmas: retry -/

theorem retry_allFail (fn : Nat → Except E A) (err : Nat → E) (backoff : Nat → ℚ)
    (h : ∀ n, fn n = .error (err n)) :
    retry fn backoff =
      ⟨some (.error (err 5)), 5, [err 1, err 2, err 3, err 4, err 5],
       [backoff 1, backoff 2, backoff 3, backoff 4]⟩ := by
  simp [retry, retryAux, MAX_ATTEMPTS, h]

/-! ## Helper lemmas: dispatcher -/

theorem foldl_set_length (task : Nat → α) (act : List Nat) (res : List (Option α)) :
    (act.foldl (fun r i => r.set i (some (task i))) res).length = res.length := by
  induction act generalizing res with
  | nil => rfl
  | cons a act ih => simp [List.foldl_cons, ih]

theorem foldl_set_get_notmem (task : Nat → α) (act : List Nat) (res : List (Option α))
    (j : Nat) (hj : j ∉ act) :
    (act.foldl (fun r i => r.set i (some (task i))) res)[j]? = res[j]? := by
  induction act generalizing res with
  | nil => rfl
  | cons a act ih =>
    simp only [List.foldl_cons]
    rw [ih _ fun h => hj (List.mem_cons_of_mem a h),
        List.getElem?_set_ne fun h => hj (by rw [← h]; exact List.mem_cons_self a act)]

theorem foldl_set_get_mem (task : Nat → α) (act : List Nat) (res : List (Option α))
    (j : Nat) (hj : j ∈ act) (hlt : j < res.length) :
    (act.foldl (fun r i => r.set i (some (task i))) res)[j]? = some (some (task j)) := by
  induction act generalizing res with
  | nil => cases hj
  | cons a act ih =>
    simp only [List.foldl_cons]
    by_cases hmem : j ∈ act
    · exact ih _ hmem (by simpa using hlt)
    · have hja : j = a := by
        rcases List.mem_cons.mp hj with h | h
        · exact h
        · exact absurd h hmem
      subst hja
      rw [foldl_set_get_notmem task act _ j hmem, List.getElem?_set_self hlt]

/-- The loop invariant of the bounded dispatcher. -/
def DispatchInv (task : Nat → α) (n taskIndex : Nat) (active : List Nat)
    (results : List (Option α)) : Prop :=
  results.length = n ∧ active.Nodup ∧ (∀ i ∈ active, i < taskIndex ∧ i < n) ∧
  ∀ j : Nat, j < n → results[j]? = some (some (task j)) ∨
    (results[j]? = some none ∧ (j ∈ active ∨ taskIndex ≤ j))

theorem dispatchLoop_ok (task : Nat → α) (n limit : Nat) (σ : Nat → Nat)
    (hl : 1 ≤ limit) :
    ∀ fuel k taskIndex active results,
      2 * (n - taskIndex) + active.length < fuel →
      DispatchInv task n taskIndex active results →
      dispatchLoop task n limit σ fuel k taskIndex active results =
        some ((List.range n).map fun i => some (task i)) := by
  intro fuel
  induction fuel with
  | zero => intro k ti act res hm _; omega
  | succ fuel ih =>
    intro k ti act res hm hinv
    obtain ⟨hlen, hnd, hbound, hres⟩ := hinv
    rw [dispatchLoop.eq_def]
    dsimp only
    by_cases hti : ti < n
    · simp only [hti, if_true]
      by_cases hact : act.length < limit
      · simp only [hact, if_true]
        refine ih k (ti + 1) (act ++ [ti]) res (by simp; omega) ⟨hlen, ?_, ?_, ?_⟩
        · refine List.Nodup.append hnd (List.nodup_singleton ti) ?_
          intro x hx hx'
          rcases List.mem_singleton.mp hx' with rfl
          exact absurd (hbound x hx).1 (lt_irrefl _)
        · intro i hi
          rcases List.mem_append.mp hi with h | h
          · exact ⟨Nat.lt_succ_of_lt (hbound i h).1, (hbound i h).2⟩
          · rcases List.mem_singleton.mp h with rfl
            exact ⟨Nat.lt_succ_self _, hti⟩
        · intro j hj
          rcases hres j hj with h | ⟨h1, h2⟩
          · exact Or.inl h
          · refine Or.inr ⟨h1, ?_⟩
            rcases h2 with h | h
            · exact Or.inl (List.mem_append.mpr (Or.inl h))
            · rcases Nat.eq_or_lt_of_le h with rfl | h
              · exact Or.inl (List.mem_append.mpr (Or.inr (List.mem_singleton_self _)))
              · exact Or.inr h
      · simp only [hact, if_false]
        match hma : act with
        | [] =>
          exfalso
          simp at hact
          omega
        | a :: rest =>
          dsimp only
          set c := (a :: rest).get
            ⟨σ k % (a :: rest).length, Nat.mod_lt _ (Nat.succ_pos _)⟩ with hc
          have hcmem : c ∈ a :: rest := List.get_mem _ _ _
          refine ih (k + 1) ti ((a :: rest).erase c) (res.set c (some (task c)))
            ?_ ⟨by simp [hlen], hnd.erase c, ?_, ?_⟩
          · have := List.length_erase_of_mem hcmem
            simp only [this]
            simp at hm ⊢
            omega
          · intro i hi
            exact hbound i (List.mem_of_mem_erase hi)
          · intro j hj
            by_cases hjc : j = c
            · subst hjc
              exact Or.inl (List.getElem?_set_self (by rw [hlen]; exact (hbound c hcmem).2))
            · rw [List.getElem?_set_ne fun h => hjc h.symm]
              rcases hres j hj with h | ⟨h1, h2⟩
              · exact Or.inl h
              · refine Or.inr ⟨h1, ?_⟩
                rcases h2 with h | h
                · exact Or.inl ((List.mem_erase_of_ne hjc).mpr h)
                · exact Or.inr h
    · simp only [hti, if_false]
      congr 1
      have hflen : (act.foldl (fun r i => r.set i (some (task i))) res).length = n := by
        rw [foldl_set_length, hlen]
      refine List.ext_getElem? fun j => ?_
      by_cases hj : j < n
      · rw [List.getElem?_map, List.getElem?_range hj]
        by_cases hmem : j ∈ act
        · rw [foldl_set_get_mem task act res j hmem (by omega)]
          rfl
        · rw [foldl_set_get_notmem task act res j hmem]
          rcases hres j hj with h | ⟨_, h2⟩
          · rw [h]
            rfl
          · rcases h2 with h | h
            · exact absurd h hmem
            · omega
      · rw [List.getElem?_eq_none (by simpa [hflen] using Nat.le_of_not_lt hj),
            List.getElem?_eq_none (by simp; omega)]

/-! ## Claim C3 -/

/-- Claim C3: an operation that fails on every attempt is attempted exactly 5
times (no more, no fewer), the onFailure observer sees each of the 5
failures in order, and the error of the 5th attempt is the one propagated
to the caller. -/
theorem retry_exhaustion (fn : Nat → Except E A) (err : Nat → E) (backoff : Nat → ℚ)
    (h : ∀ n, fn n = .error (err n)) :
    (retry fn backoff).attempts = 5 ∧
    (retry fn backoff).failures = [err 1, err 2, err 3, err 4, err 5] ∧
    (retry fn backoff).result = some (.error (err 5)) := by
  rw [retry_allFail fn err backoff h]
  exact ⟨rfl, rfl, rfl⟩

/-- Witness for C3 at a concrete always-failing operation. -/
theorem retry_exhaustion_witness :
    (retry (E := Nat) (A := Nat) (fun n => .error n) (fun _ => (0 : ℚ))).attempts = 5 ∧
    (retry (E := Nat) (A := Nat) (fun n => .error n) (fun _ => (0 : ℚ))).failures =
      [1, 2, 3, 4, 5] ∧
    (retry (E := Nat) (A := Nat) (fun n => .error n) (fun _ => (0 : ℚ))).result =
      some (.error 5) :=
  retry_exhaustion (fun n => .error n) (fun n => n) (fun _ => (0 : ℚ)) (fun _ => rfl)

/-! ## Claim C5 -/

/-- Claim C5 counterexample: in an always-failing run using the geometric
strategy with zero jitter, the delay taken between attempt 1 and attempt 2
is `geometricBackoff 1 0 = 200`, while the claimed formula
`base * 2 ^ (attempt - 1) + jitter` gives `100` — so the claimed delay is
wrong at attempt 1 even before jitter. -/
theorem geometricBackoff_counterexample :
    (retry (E := Nat) (A := Nat) (fun n => .error n)
        (fun it => geometricBackoff it 0)).delays.head? =
      some (geometricBackoff 1 0) ∧
    geometricBackoff 1 0 = 200 ∧
    (100 * 2 ^ (1 - 1) + 0 : ℚ) = 100 ∧
    geometricBackoff 1 0 ≠ 100 * 2 ^ (1 - 1) + 0 := by
  refine ⟨?_, by norm_num [geometricBackoff, jitter], by norm_num,
    by norm_num [geometricBackoff, jitter]⟩
  rw [retry_allFail (fun n => .error n) (fun n => n) _ (fun _ => rfl)]
  rfl

/-- Claim C5 (amended): the delay used between (1-based) attempt n and
attempt n+1 is `geometricBackoff n j = 100 * 2 ^ n + j` — exponent `n`,
not `n - 1` — with the jitter `j` bounded in `[0, 100)`. -/
theorem geometricBackoff_delay (fn : Nat → Except E A) (err : Nat → E) (j : Nat → ℚ)
    (hfn : ∀ m, fn m = .error (err m)) (hj : ∀ m, 0 ≤ j m ∧ j m < 100)
    (n : Nat) (h1 : 1 ≤ n) (h4 : n ≤ 4) :
    (retry fn fun it => geometricBackoff it (j it)).delays[n - 1]? =
      some (geometricBackoff n (j n)) ∧
    geometricBackoff n (j n) = 100 * 2 ^ n + j n ∧
    100 * 2 ^ n ≤ geometricBackoff n (j n) ∧
    geometricBackoff n (j n) < 100 * 2 ^ n + 100 := by
  rw [retry_allFail fn err _ hfn]
  refine ⟨?_, by simp [geometricBackoff, jitter]; ring, ?_, ?_⟩
  · interval_cases n <;> rfl
  · have := (hj n).1
    simp only [geometricBackoff, jitter]
    nlinarith [pow_pos (by norm_num : (0:ℚ) < 2) n]
  · have := (hj n).2
    simp only [geometricBackoff, jitter]
    nlinarith [pow_pos (by norm_num : (0:ℚ) < 2) n]

/-- Witness for C5 (amended) at attempt 1 with jitter 50. -/
theorem geometricBackoff_delay_witness :
    (retry (E := Nat) (A := Nat) (fun m => .error m)
        (fun it => geometricBackoff it ((fun _ => (50 : ℚ)) it))).delays[0]? =
      some (geometricBackoff 1 50) ∧
    geometricBackoff 1 50 = 100 * 2 ^ 1 + 50 ∧
    100 * 2 ^ 1 ≤ geometricBackoff 1 50 ∧
    geometricBackoff 1 50 < 100 * 2 ^ 1 + 100 :=
  geometricBackoff_delay (fun m => .error m) (fun m => m) (fun _ => (50 : ℚ))
    (fun _ => rfl) (fun _ => by norm_num) 1 le_rfl (by norm_num)

/-! ## Claim C4 -/

/-- Claim C4 counterexample: with one task and `concurrencyLimit = 0` the
dispatcher can never launch anything and suspends on a race over an empty
active set — the call never returns at all (modelled as `none`), so it
does not return an array for every concurrencyLimit. -/
theorem concurrentWithRetry_counterexample :
    concurrentWithRetry (fun i : Nat => i * 10) 1 0 (fun _ => 0) = none ∧
    (some (((List.range 1).map fun i => some (i * 10)) : List (Option Nat)) :
        Option (List (Option Nat))) ≠ none := by
  decide

/-- Claim C4 (amended): for every list of tasks, every
`concurrencyLimit ≥ 1` and every completion schedule, the dispatcher
returns an array of the same length as the tasks whose i-th entry is the
i-th task's result — completion order never affects result order. -/
theorem concurrentWithRetry_order (task : Nat → α) (n limit : Nat) (σ : Nat → Nat)
    (hl : 1 ≤ limit) :
    ∃ out, concurrentWithRetry task n limit σ = some out ∧ out.length = n ∧
      ∀ i, i < n → out[i]? = some (some (task i)) := by
  refine ⟨(List.range n).map fun i => some (task i), ?_, by simp, ?_⟩
  · refine dispatchLoop_ok task n limit σ hl _ 0 0 [] (List.replicate n none)
      (by simp only [Nat.sub_zero, List.length_nil]; omega)
      ⟨by simp, List.nodup_nil, by simp, ?_⟩
    intro j hj
    exact Or.inr ⟨by simp [List.getElem?_replicate, hj], Or.inr (Nat.zero_le _)⟩
  · intro i hi
    simp [List.getElem?_map, List.getElem?_range hi]

/-- Witness for C4 (amended): three tasks, limit 1, an adversarial
schedule; the output is still in task order. -/
theorem concurrentWithRetry_order_witness :
    ∃ out, concurrentWithRetry (fun i : Nat => i * 10) 3 1 (fun k => k + 1) = some out ∧
      out.length = 3 ∧ ∀ i, i < 3 → out[i]? = some (some (i * 10)) :=
  concurrentWithRetry_order (fun i : Nat => i * 10) 3 1 (fun k => k + 1) le_rfl

/-! ## Helper lemmas: the stable timestamp sort -/

theorem insertByTs_perm (a : StepEvent) (l : List StepEvent) :
    (insertByTs a l).Perm (a :: l) := by
  induction l with
  | nil => exact List.Perm.refl _
  | cons b l ih =>
    rw [insertByTs]
    by_cases h : a.timestamp ≤ b.timestamp
    · simp [h]
    · simp only [h, if_false]
      exact (ih.cons b).trans (List.Perm.swap a b l)

theorem sortByTimestamp_perm (l : List StepEvent) : (sortByTimestamp l).Perm l := by
  induction l with
  | nil => exact List.Perm.refl _
  | cons a l ih =>
    rw [sortByTimestamp]
    exact (insertByTs_perm a (sortByTimestamp l)).trans (ih.cons a)

theorem sorted_insertByTs (a : StepEvent) (l : List StepEvent)
    (h : l.Pairwise fun x y => x.timestamp ≤ y.timestamp) :
    (insertByTs a l).Pairwise fun x y => x.timestamp ≤ y.timestamp := by
  induction l with
  | nil => simp [insertByTs]
  | cons b l ih =>
    rw [insertByTs]
    rcases List.pairwise_cons.mp h with ⟨hb, hl⟩
    by_cases hab : a.timestamp ≤ b.timestamp
    · simp only [hab, if_true]
      refine List.pairwise_cons.mpr ⟨?_, h⟩
      intro x hx
      rcases List.mem_cons.mp hx with rfl | hx
      · exact hab
      · exact hab.trans (hb x hx)
    · simp only [hab, if_false]
      refine List.pairwise_cons.mpr ⟨?_, ih hl⟩
      intro x hx
      rcases List.mem_cons.mp ((insertByTs_perm a l).mem_iff.mp hx) with rfl | hx
      · exact Nat.le_of_not_le hab
      · exact hb x hx

theorem sorted_sortByTimestamp (l : List StepEvent) :
    (sortByTimestamp l).Pairwise fun x y => x.timestamp ≤ y.timestamp := by
  induction l with
  | nil => simp [sortByTimestamp]
  | cons a l ih => exact sorted_insertByTs a (sortByTimestamp l) ih

theorem sortByTimestamp_eq_of_perm (l1 l2 : List StepEvent) (hp : l1.Perm l2)
    (hn : (l1.map fun e => e.timestamp).Nodup) :
    sortByTimestamp l1 = sortByTimestamp l2 := by
  have hperm : (sortByTimestamp l1).Perm (sortByTimestamp l2) :=
    (sortByTimestamp_perm l1).trans (hp.trans (sortByTimestamp_perm l2).symm)
  have strict : ∀ m : List StepEvent, (m.map fun e => e.timestamp).Nodup →
      (m.Pairwise fun x y => x.timestamp ≤ y.timestamp) →
      m.Pairwise fun x y => x.timestamp < y.timestamp := by
    intro m hmn hms
    have hne : m.Pairwise fun x y => x.timestamp ≠ y.timestamp := by
      rw [List.Nodup, List.pairwise_map] at hmn
      exact hmn
    exact (hms.and hne).imp fun h => Nat.lt_of_le_of_ne h.1 h.2
  have hn1 : ((sortByTimestamp l1).map fun e => e.timestamp).Nodup :=
    (((sortByTimestamp_perm l1).map fun e => e.timestamp).nodup_iff).mpr hn
  have hn2 : ((sortByTimestamp l2).map fun e => e.timestamp).Nodup :=
    (hperm.map fun e => e.timestamp).nodup_iff.mp hn1
  haveI : IsAntisymm StepEvent fun x y => x.timestamp < y.timestamp :=
    ⟨fun a b h1 h2 => (Nat.lt_asymm h1 h2).elim⟩
  exact List.eq_of_perm_of_sorted hperm
    (strict _ hn1 (sorted_sortByTimestamp l1))
    (strict _ hn2 (sorted_sortByTimestamp l2))

/-! ## Claim C1 -/

/-- Events used by the C1 counterexample: two test:start events carrying
the same timestamp but different test paths. -/
def c1EventA : StepEvent :=
  { event := .testStart, timestamp := 3, test := ["a"], file := "f",
    command := none, category := none, hook := none, error := none }

def c1EventB : StepEvent :=
  { event := .testStart, timestamp := 3, test := ["b"], file := "f",
    command := none, category := none, hook := none, error := none }

/-- Claim C1 counterexample: two arrival orders of the same two-event
multiset — both events carrying timestamp 3 — yield different outputs,
because the stable sort keeps arrival order on ties and the seeded test
order follows the (sorted) arrival order. -/
theorem groupStepsByTest_perm_counterexample :
    [c1EventA, c1EventB].Perm [c1EventB, c1EventA] ∧
    groupStepsByTest [c1EventA, c1EventB] 0 ≠
      groupStepsByTest [c1EventB, c1EventA] 0 := by
  decide

/-- Claim C1 (amended): for every two arrival orders of a fixed RawEvent
multiset whose timestamps are pairwise distinct, the aggregator produces
identical Test and Step structures; when timestamps tie, the stable sort
preserves arrival order, which can leak into the output. -/
theorem groupStepsByTest_order_independent (l1 l2 : List StepEvent) (ft : Int)
    (hp : l1.Perm l2) (hn : (l1.map fun e => e.timestamp).Nodup) :
    groupStepsByTest l1 ft = groupStepsByTest l2 ft := by
  have hs := sortByTimestamp_eq_of_perm l1 l2 hp hn
  have hlen := hp.length_eq
  simp only [groupStepsByTest, hs, hlen]

/-- Events of the spec's concrete scenario, in order and fully reversed. -/
def c1Scenario : List StepEvent :=
  [{ event := .testStart, timestamp := 0, test := ["t"], file := "f",
     command := none, category := none, hook := none, error := none },
   { event := .start, timestamp := 5, test := ["t"], file := "f",
     command := some { id := "a", groupId := none, commandId := none,
                       name := "click", args := [] },
     category := none, hook := none, error := none },
   { event := .stepEnd, timestamp := 15, test := ["t"], file := "f",
     command := some { id := "a", groupId := none, commandId := none,
                       name := "click", args := [] },
     category := none, hook := none, error := none },
   { event := .testEnd, timestamp := 20, test := ["t"], file := "f",
     command := none, category := none, hook := none, error := none }]

/-- Witness for C1 (amended): the spec's concrete scenario delivered in
order and fully reversed produces identical output. -/
theorem groupStepsByTest_order_independent_witness :
    groupStepsByTest c1Scenario 0 = groupStepsByTest c1Scenario.reverse 0 :=
  groupStepsByTest_order_independent c1Scenario c1Scenario.reverse 0
    (by decide) (by decide)

/-! ## Helper lemmas: the shapes of successful event processing -/

theorem mem_modifyAt {l : List α} {i : Nat} {f : α → α} {b : α}
    (h : b ∈ modifyAt l i f) : b ∈ l ∨ ∃ a, a ∈ l ∧ b = f a := by
  unfold modifyAt at h
  match hx : l[i]? with
  | none => rw [hx] at h; exact Or.inl h
  | some a =>
    rw [hx] at h
    rcases List.mem_or_eq_of_mem_set h with h | h
    · exact Or.inl h
    · exact Or.inr ⟨a, List.getElem?_mem hx, h⟩

theorem length_modifyAt (l : List α) (i : Nat) (f : α → α) :
    (modifyAt l i f).length = l.length := by
  unfold modifyAt
  match hx : l[i]? with
  | none => rfl
  | some a => simp

theorem getElem?_modifyAt_ne (l : List α) (i : Nat) (f : α → α) (j : Nat)
    (h : i ≠ j) : (modifyAt l i f)[j]? = l[j]? := by
  unfold modifyAt
  match hx : l[i]? with
  | none => rfl
  | some a => exact List.getElem?_set_ne h

/-- Exhaustive description of the states a successful `processEvent`
can produce. -/
theorem processEvent_ok_cases (ft : Int) (s0 : AggState) (e : StepEvent)
    (s' : AggState) (hok : processEvent ft s0 e = .ok s') :
    ∃ ti, (resolveState s0 e).currentTest = some ti ∧
      (s' = resolveState s0 e ∨
       (e.event = .start ∧
        shouldSkipStep e (resolveState s0 e).skippedStepIds = true ∧
        s' = { resolveState s0 e with
                 skippedStepIds :=
                   (resolveState s0 e).skippedStepIds ++ skipAdditions e }) ∨
       (e.event = .start ∧ (∃ c, e.command = some c ∧
        shouldSkipStep e (resolveState s0 e).skippedStepIds = false ∧
        s' = startInsert ft (resolveState s0 e) ti e c)) ∨
       (e.event = .stepEnd ∧ (∃ c item, e.command = some c ∧
        findMatchingStep (resolveState s0 e) e c = some item ∧
        s' = endUpdate ft (resolveState s0 e) ti e c item)) ∨
       (e.event = .testEnd ∧ s' = testEndUpdate ft (resolveState s0 e) ti e)) := by
  unfold processEvent at hok
  rcases hcur : (resolveState s0 e).currentTest with _ | ti
  · simp only [hcur] at hok
    cases hok
  refine ⟨ti, rfl, ?_⟩
  simp only [hcur] at hok
  rcases hev : e.event with _ | _ | _ | _ | _
  · rw [hev] at hok
    cases hok
    exact Or.inl rfl
  · -- step:start
    rw [hev] at hok
    unfold processStart at hok
    by_cases hskip : shouldSkipStep e (resolveState s0 e).skippedStepIds = true
    · rw [if_pos hskip] at hok
      cases hok
      exact Or.inr (Or.inl ⟨rfl, hskip, rfl⟩)
    · rw [if_neg hskip] at hok
      rcases hcmd : e.command with _ | c
      · simp only [hcmd] at hok
        cases hok
      · simp only [hcmd] at hok
        cases hok
        exact Or.inr (Or.inr (Or.inl ⟨rfl, c, rfl, by simpa using hskip, rfl⟩))
  · -- step:end
    rw [hev] at hok
    unfold processEnd at hok
    rcases hcmd : e.command with _ | c
    · simp only [hcmd] at hok
      cases hok
    · simp only [hcmd] at hok
      by_cases h1 : ((findMatchingStep (resolveState s0 e) e c).isNone &&
          (resolveState s0 e).skippedStepIds.contains c.id) = true
      · rw [if_pos h1] at hok
        cases hok
        exact Or.inl rfl
      · rw [if_neg h1] at hok
        by_cases h2 : (e.test.head? == some AFTER_EACH_HOOK) = true
        · rw [if_pos h2] at hok
          cases hok
          exact Or.inl rfl
        · rw [if_neg h2] at hok
          rcases hitem : findMatchingStep (resolveState s0 e) e c with _ | item
          · simp only [hitem] at hok
            cases hok
          · simp only [hitem] at hok
            rcases hpc : item.event.command with _ | pc
            · simp only [hpc] at hok
              cases hok
            · simp only [hpc] at hok
              by_cases hid : pc.id ≠ c.id
              · rw [if_pos hid] at hok
                cases hok
              · rw [if_neg hid] at hok
                cases hok
                exact Or.inr (Or.inr (Or.inr (Or.inl ⟨rfl, c, item, rfl, hitem, rfl⟩)))
  · -- test:start
    rw [hev] at hok
    cases hok
    exact Or.inl rfl
  · -- test:end
    rw [hev] at hok
    cases hok
    exact Or.inr (Or.inr (Or.inr (Or.inr ⟨rfl, rfl⟩)))

/-! ## Helper lemmas: folding the event walk -/

theorem foldlM_ok_cons {α β ε : Type} {f : β → α → Except ε β} {s s' : β} {e : α}
    {tl : List α} (h : List.foldlM f s (e :: tl) = .ok s') :
    ∃ s1, f s e = .ok s1 ∧ List.foldlM f s1 tl = .ok s' := by
  rw [List.foldlM_cons] at h
  rcases hx : f s e with x | s1
  · rw [hx] at h
    simp [Bind.bind, Except.bind] at h
  · rw [hx] at h
    simp only [Bind.bind, Except.bind] at h
    exact ⟨s1, rfl, h⟩

theorem foldlM_preserve {P : AggState → Prop} {ft : Int}
    (hstep : ∀ s e s', processEvent ft s e = .ok s' → P s → P s') :
    ∀ evs s s', List.foldlM (processEvent ft) s evs = .ok s' → P s → P s' := by
  intro evs
  induction evs with
  | nil =>
    intro s s' h hp
    simp only [List.foldlM_nil] at h
    cases h
    exact hp
  | cons e tl ih =>
    intro s s' h hp
    obtain ⟨s1, h1, h2⟩ := foldlM_ok_cons h
    exact ih s1 s' h2 (hstep s e s1 h1 hp)

theorem groupStepsByTest_ok_cases (evs : List StepEvent) (ft : Int)
    (out : List Test) (hok : groupStepsByTest evs ft = .ok out) :
    (evs = [] ∧ out = []) ∨ ∃ sfin, List.foldlM (processEvent ft)
      (initialState (sortByTimestamp evs) ft) (sortByTimestamp evs) = .ok sfin ∧
      out = sfin.tests := by
  unfold groupStepsByTest at hok
  by_cases hlen : evs.length = 0
  · rw [if_pos hlen] at hok
    cases hok
    exact Or.inl ⟨List.length_eq_zero.mp hlen, rfl⟩
  · rw [if_neg hlen] at hok
    rcases hfold : List.foldlM (processEvent ft)
        (initialState (sortByTimestamp evs) ft) (sortByTimestamp evs) with x | sfin
    · rw [hfold] at hok
      simp [Except.map] at hok
    · rw [hfold] at hok
      simp only [Except.map] at hok
      cases hok
      exact Or.inr ⟨sfin, rfl, rfl⟩

/-! ## Helper lemmas: step durations stay non-negative -/

/-- Every step of every test has a non-negative duration, when set. -/
def StepsNonneg (tests : List Test) : Prop :=
  ∀ t ∈ tests, ∀ st ∈ t.steps, ∀ d, st.duration = some d → 0 ≤ d

theorem stepsNonneg_linkAssert {tests : List Test} {ti : Nat} {c : Command}
    (h : StepsNonneg tests) : StepsNonneg (linkAssert tests ti c) := by
  unfold linkAssert
  rcases c.commandId with _ | cid
  · exact h
  · dsimp only
    by_cases hcid : cid ≠ ""
    · rw [if_pos hcid]
      intro t' ht' st' hst' d hd
      rcases mem_modifyAt ht' with ht | ⟨t, ht, rfl⟩
      · exact h t' ht st' hst' d hd
      · rcases hj : t.steps.findIdx? (fun st => st.id == cid) with _ | j
        · rw [hj] at hst'
          exact h t ht st' hst' d hd
        · rw [hj] at hst'
          simp only at hst'
          rcases mem_modifyAt hst' with hst | ⟨st0, hst0, rfl⟩
          · exact h t ht st' hst d hd
          · exact h t ht st0 hst0 d hd
    · rw [if_neg hcid]
      exact h

theorem stepsNonneg_startInsert {ft : Int} {s : AggState} {ti : Nat}
    {step : StepEvent} {c : Command} (h : StepsNonneg s.tests) :
    StepsNonneg (startInsert ft s ti step c).tests := by
  unfold startInsert
  intro t' ht' st' hst' d hd
  simp only at ht'
  rcases mem_modifyAt ht' with ht | ⟨t, ht, rfl⟩
  · exact stepsNonneg_linkAssert h t' ht st' hst' d hd
  · simp only at hst'
    rcases List.mem_append.mp hst' with hst | hst
    · exact stepsNonneg_linkAssert h t ht st' hst d hd
    · rcases List.mem_singleton.mp hst with rfl
      cases hd

theorem stepsNonneg_endUpdate {ft : Int} {s : AggState} {ti : Nat}
    {step : StepEvent} {c : Command} {item : StackItem} (h : StepsNonneg s.tests) :
    StepsNonneg (endUpdate ft s ti step c item).tests := by
  unfold endUpdate
  intro t' ht' st' hst' d hd
  simp only at ht'
  rcases mem_modifyAt ht' with ht | ⟨t, ht, rfl⟩
  · exact h t' ht st' hst' d hd
  · simp only at hst'
    rcases mem_modifyAt hst' with hst | ⟨st0, hst0, rfl⟩
    · exact h t ht st' hst d hd
    · unfold endStepUpdate at hd
      simp only at hd
      cases hd
      exact le_max_left 0 _

theorem stepsNonneg_testEndUpdate {ft : Int} {s : AggState} {ti : Nat}
    {step : StepEvent} (h : StepsNonneg s.tests) :
    StepsNonneg (testEndUpdate ft s ti step).tests := by
  unfold testEndUpdate
  intro t' ht' st' hst' d hd
  simp only at ht'
  rcases mem_modifyAt ht' with ht | ⟨t, ht, rfl⟩
  · exact h t' ht st' hst' d hd
  · exact h t ht st' hst' d hd

theorem processEvent_stepsNonneg {ft : Int} (s : AggState) (e : StepEvent)
    (s' : AggState) (hok : processEvent ft s e = .ok s')
    (h : StepsNonneg s.tests) : StepsNonneg s'.tests := by
  have hres : StepsNonneg (resolveState s e).tests := h
  rcases processEvent_ok_cases ft s e s' hok with
    ⟨ti, _, hc | ⟨_, _, hc⟩ | ⟨_, c, _, _, hc⟩ | ⟨_, c, item, _, _, hc⟩ | ⟨_, hc⟩⟩
  · rw [hc]; exact hres
  · rw [hc]; exact hres
  · rw [hc]; exact stepsNonneg_startInsert hres
  · rw [hc]; exact stepsNonneg_endUpdate hres
  · rw [hc]; exact stepsNonneg_testEndUpdate hres

/-! ## Claim C2 -/

/-- Events used by the C2 counterexample: a `test:end` whose timestamp
precedes its own `test:start`. -/
def c2Events : List StepEvent :=
  [{ event := .testStart, timestamp := 10, test := ["T"], file := "f",
     command := none, category := none, hook := none, error := none },
   { event := .testEnd, timestamp := 5, test := ["T"], file := "f",
     command := none, category := none, hook := none, error := none }]

/-- Claim C2 counterexample: when the raw `test:end` timestamp precedes
the `test:start` timestamp, the reconstructed Test's duration is the
negative value -5 — Test durations are not clamped. -/
theorem test_duration_negative_counterexample :
    groupStepsByTest c2Events 0 =
      .ok [{ title := "T", path := ["T"], result := "passed", relativePath := "f",
             relativeStartTime := 10, steps := [], duration := some (-5) }] ∧
    ((-5 : Int) < 0) := by
  decide

/-- Claim C2 (amended): every reconstructed Step has duration ≥ 0 (the
step duration is clamped with max 0), even under clock skew; reconstructed
Test durations are not clamped and can be negative. -/
theorem groupStepsByTest_step_duration_nonneg (evs : List StepEvent) (ft : Int)
    (out : List Test) (hok : groupStepsByTest evs ft = .ok out) :
    ∀ t ∈ out, ∀ st ∈ t.steps, ∀ d, st.duration = some d → 0 ≤ d := by
  rcases groupStepsByTest_ok_cases evs ft out hok with ⟨_, rfl⟩ | ⟨sfin, hfold, rfl⟩
  · intro t ht
    cases ht
  · refine foldlM_preserve (fun s e s' h1 h2 => processEvent_stepsNonneg s e s' h1 h2)
      (sortByTimestamp evs) _ sfin hfold ?_
    intro t ht st hst d hd
    unfold initialState at ht
    simp only at ht
    rcases List.mem_map.mp ht with ⟨e, _, rfl⟩
    cases hst

/-- The step and test `groupStepsByTest c1Scenario 0` reconstructs. -/
def c2WitnessStep : TestStep :=
  { id := "a", parentId := none, name := "click", args := [],
    commandId := none, relativeStartTime := 5, category := "other",
    hook := none, duration := some 10, error := none, assertIds := [] }

def c2WitnessTest : Test :=
  { title := "t", path := ["t"], result := "passed", relativePath := "f",
    relativeStartTime := 0, steps := [c2WitnessStep], duration := some 20 }

/-- Witness for C2 (amended) on the spec's concrete scenario: the single
reconstructed step has duration 10 ≥ 0. -/
theorem groupStepsByTest_step_duration_nonneg_witness :
    (0 : Int) ≤ 10 :=
  groupStepsByTest_step_duration_nonneg c1Scenario 0 [c2WitnessTest]
    (by decide) c2WitnessTest (List.mem_singleton_self _)
    c2WitnessStep (List.mem_singleton_self _) 10 rfl

/-! ## Claim C7 -/

theorem processEvent_skipped_mono {ft : Int} (s : AggState) (e : StepEvent)
    (s' : AggState) (hok : processEvent ft s e = .ok s') :
    s.skippedStepIds ⊆ s'.skippedStepIds := by
  rcases processEvent_ok_cases ft s e s' hok with
    ⟨ti, _, hc | ⟨_, _, hc⟩ | ⟨_, c, _, _, hc⟩ | ⟨_, c, item, _, _, hc⟩ | ⟨_, hc⟩⟩
  · rw [hc]; exact fun a ha => ha
  · rw [hc]; exact fun a ha => List.mem_append.mpr (Or.inl ha)
  · rw [hc]; exact fun a ha => ha
  · rw [hc]; exact fun a ha => ha
  · rw [hc]; exact fun a ha => ha

/-- Claim C7: the skipped-ids set grows monotonically across one
aggregation pass (part 1), and a step:start whose groupId is already in
the skipped set creates no Step — the tests are untouched — while the
groupId stays in the set, so every later step:start sharing that groupId
is skipped in turn (part 2). -/
theorem skippedStepIds_monotone_and_group_skip :
    (∀ (ft : Int) (evs : List StepEvent) (s s' : AggState),
       List.foldlM (processEvent ft) s evs = .ok s' →
       s.skippedStepIds ⊆ s'.skippedStepIds) ∧
    (∀ (ft : Int) (s : AggState) (e : StepEvent) (s' : AggState) (c : Command)
       (g : String),
       e.event = .start → e.command = some c → c.groupId = some g →
       g ∈ s.skippedStepIds → processEvent ft s e = .ok s' →
       s'.tests = s.tests ∧ g ∈ s'.skippedStepIds) := by
  constructor
  · intro ft evs s s' h
    refine foldlM_preserve (P := fun st => s.skippedStepIds ⊆ st.skippedStepIds)
      (fun s1 e s1' h1 hsub => hsub.trans (processEvent_skipped_mono s1 e s1' h1))
      evs s s' h (fun a ha => ha)
  · intro ft s e s' c g hev hc hg hmem hok
    have hskip : shouldSkipStep e (resolveState s e).skippedStepIds = true := by
      unfold shouldSkipStep
      simp [hc, hg]
      exact Or.inr hmem
    rcases processEvent_ok_cases ft s e s' hok with
      ⟨ti, _, hc1 | ⟨_, _, hc1⟩ | ⟨_, c1, _, hns, _⟩ | ⟨he2, _, _, _, _, _⟩ | ⟨he2, _⟩⟩
    · rw [hc1]
      exact ⟨rfl, hmem⟩
    · rw [hc1]
      exact ⟨rfl, List.mem_append.mpr (Or.inl hmem)⟩
    · rw [hskip] at hns
      cases hns
    · rw [hev] at he2
      cases he2
    · rw [hev] at he2
      cases he2

/-- States and events for the C7 witness. -/
def c7Test : Test :=
  seedTest 0 ⟨.testStart, 0, ["T"], "f", none, none, none, none⟩

def c7State : AggState := ⟨[c7Test], [], ["g"], none, none⟩

def c7Event : StepEvent :=
  ⟨.start, 5, ["T"], "f", some ⟨"a", some "g", none, "click", []⟩,
   none, none, none⟩

def c7StateAfter : AggState := ⟨[c7Test], [], ["g", "a", "g"], none, some 0⟩

/-- Witness for C7: a concrete pass over one group-skipped step:start
event extends the skip set and leaves the tests unchanged. -/
theorem skippedStepIds_monotone_and_group_skip_witness :
    c7State.skippedStepIds ⊆ c7StateAfter.skippedStepIds ∧
    (c7StateAfter.tests = c7State.tests ∧ "g" ∈ c7StateAfter.skippedStepIds) :=
  ⟨skippedStepIds_monotone_and_group_skip.1 0 [c7Event] c7State c7StateAfter
     (by decide),
   skippedStepIds_monotone_and_group_skip.2 0 c7State c7Event c7StateAfter
     ⟨"a", some "g", none, "click", []⟩ "g" rfl rfl rfl (by decide) (by decide)⟩

/-! ## Claim C8 -/

theorem length_linkAssert (tests : List Test) (ti : Nat) (c : Command) :
    (linkAssert tests ti c).length = tests.length := by
  unfold linkAssert
  rcases c.commandId with _ | cid
  · rfl
  · dsimp only
    by_cases hcid : cid ≠ ""
    · rw [if_pos hcid, length_modifyAt]
    · rw [if_neg hcid]

theorem getElem?_linkAssert_ne (tests : List Test) (ti : Nat) (c : Command)
    (i : Nat) (h : ti ≠ i) : (linkAssert tests ti c)[i]? = tests[i]? := by
  unfold linkAssert
  rcases c.commandId with _ | cid
  · rfl
  · dsimp only
    by_cases hcid : cid ≠ ""
    · rw [if_pos hcid, getElem?_modifyAt_ne _ _ _ _ h]
    · rw [if_neg hcid]

theorem processEvent_tests_length {ft : Int} (s : AggState) (e : StepEvent)
    (s' : AggState) (hok : processEvent ft s e = .ok s') :
    s'.tests.length = s.tests.length := by
  rcases processEvent_ok_cases ft s e s' hok with
    ⟨ti, _, hc | ⟨_, _, hc⟩ | ⟨_, c, _, _, hc⟩ | ⟨_, c, item, _, _, hc⟩ | ⟨_, hc⟩⟩
  · rw [hc]; rfl
  · rw [hc]; rfl
  · rw [hc]
    unfold startInsert
    simp only
    rw [length_modifyAt, length_linkAssert]
    rfl
  · rw [hc]
    unfold endUpdate
    simp only
    rw [length_modifyAt]
    rfl
  · rw [hc]
    unfold testEndUpdate
    simp only
    rw [length_modifyAt]
    rfl

/-- Events for the C8 counterexample: two `test:start` events with the
same testPath. -/
def c8Events : List StepEvent :=
  [⟨.testStart, 0, ["t"], "f", none, none, none, none⟩,
   ⟨.testStart, 1, ["t"], "f", none, none, none, none⟩]

def c8TestA : Test := ⟨"t", ["t"], "passed", "f", 0, [], none⟩

def c8TestB : Test := ⟨"t", ["t"], "passed", "f", 1, [], none⟩

/-- Claim C8 counterexample: two `test:start` events sharing one testPath
seed two distinct Test entities with equal `path` — Tests are created one
per test:start event, not one per distinct testPath. -/
theorem one_test_per_path_counterexample :
    groupStepsByTest c8Events 0 = .ok [c8TestA, c8TestB] ∧
    c8TestA.path = c8TestB.path ∧ c8TestA ≠ c8TestB := by
  decide

/-- Claim C8 (amended): the aggregator creates exactly one Test per
`test:start` event (duplicate testPaths yield duplicate Tests), and a
step:start event only touches the Test selected by `findTestForStep` —
the first seeded Test whose title equals the last element of the event's
testPath; keying is by title, not by the full testPath. -/
theorem tests_per_event_and_title_attach :
    (∀ (evs : List StepEvent) (ft : Int) (out : List Test),
       groupStepsByTest evs ft = .ok out →
       out.length = (evs.filter fun e => e.event == .testStart).length) ∧
    (∀ (ft : Int) (s : AggState) (e : StepEvent) (s' : AggState) (ti : Nat),
       e.event = .start → processEvent ft s e = .ok s' →
       findTestForStep s.tests e = some ti →
       ∀ i, i ≠ ti → s'.tests[i]? = s.tests[i]?) := by
  constructor
  · intro evs ft out hok
    rcases groupStepsByTest_ok_cases evs ft out hok with ⟨rfl, rfl⟩ | ⟨sfin, hfold, rfl⟩
    · rfl
    · have hlen : sfin.tests.length =
          (initialState (sortByTimestamp evs) ft).tests.length :=
        foldlM_preserve
          (P := fun st => st.tests.length =
            (initialState (sortByTimestamp evs) ft).tests.length)
          (fun s1 e s1' h1 hp =>
            (processEvent_tests_length s1 e s1' h1).trans hp)
          (sortByTimestamp evs) _ sfin hfold rfl
      rw [hlen]
      unfold initialState
      simp only [List.length_map]
      exact ((sortByTimestamp_perm evs).filter _).length_eq
  · intro ft s e s' ti hev hok hfind i hi
    rcases processEvent_ok_cases ft s e s' hok with
      ⟨ti2, hcur, hc | ⟨_, _, hc⟩ | ⟨_, c, _, _, hc⟩ | ⟨he2, _, _, _, _, _⟩ | ⟨he2, _⟩⟩
    · rw [hc]; rfl
    · rw [hc]; rfl
    · have hti : ti2 = ti := by
        have : findTestForStep s.tests e = some ti2 := hcur
        rw [hfind] at this
        exact (Option.some.injEq _ _).mp this.symm
      subst hti
      rw [hc]
      unfold startInsert
      simp only
      rw [getElem?_modifyAt_ne _ _ _ _ (fun h => hi h.symm),
          getElem?_linkAssert_ne _ _ _ _ (fun h => hi h.symm)]
      rfl
    · rw [hev] at he2
      cases he2
    · rw [hev] at he2
      cases he2

/-- States and events for the C8 witness. -/
def c8Before : AggState :=
  ⟨[⟨"a", ["a"], "passed", "f", 0, [], none⟩,
    ⟨"b", ["b"], "passed", "f", 1, [], none⟩], [], [], none, none⟩

def c8Start : StepEvent :=
  ⟨.start, 5, ["b"], "f", some ⟨"s1", none, none, "click", []⟩, none, none, none⟩

def c8After : AggState :=
  ⟨[⟨"a", ["a"], "passed", "f", 0, [], none⟩,
    ⟨"b", ["b"], "passed", "f", 1,
     [⟨"s1", none, "click", [], none, 4, "other", none, none, none, []⟩], none⟩],
   [⟨c8Start, 1, 0⟩], [], none, some 1⟩

/-- Witness for C8 (amended): the concrete scenario seeds one test for
its one test:start event, and a step:start aimed at test "b" leaves test
"a" untouched. -/
theorem tests_per_event_and_title_attach_witness :
    ([c2WitnessTest] : List Test).length =
      (c1Scenario.filter fun e => e.event == .testStart).length ∧
    c8After.tests[0]? = c8Before.tests[0]? :=
  ⟨tests_per_event_and_title_attach.1 c1Scenario 0 [c2WitnessTest] (by decide),
   tests_per_event_and_title_attach.2 0 c8Before c8Start c8After 1 rfl
     (by decide) (by decide) 0 (by decide)⟩

/-! ## Claim C6 -/

theorem findMatchingStep_resolveState (s : AggState) (e0 e : StepEvent)
    (c : Command) :
    findMatchingStep (resolveState s e0) e c = findMatchingStep s e c := rfl

/-- Events for the C6 counterexample: an unmatched, unskipped `step:end`
whose testPath starts with the afterEach-hook marker. -/
def c6Events : List StepEvent :=
  [⟨.testStart, 0, [AFTER_EACH_HOOK], "f", none, none, none, none⟩,
   ⟨.stepEnd, 1, [AFTER_EACH_HOOK], "f",
    some ⟨"x", none, none, "click", []⟩, none, none, none⟩]

/-- Claim C6 counterexample: a `step:end` with no matching in-progress
step and an id that is not in the skipped set is dropped silently — not
thrown — when the testPath starts with the afterEach-hook marker, because
the afterEach `continue` runs before `assertMatchingStep`. -/
theorem mismatched_step_counterexample :
    groupStepsByTest c6Events 0 =
      .ok [⟨AFTER_EACH_HOOK, [AFTER_EACH_HOOK], "passed", "f", 0, [], none⟩] ∧
    groupStepsByTest c6Events 0 ≠ .error .mismatchedStep := by
  decide

/-- Claim C6 (amended): for a `step:end` event with no matching
in-progress step, (1) if the command id is in the skipped set the event is
ignored silently; (2) otherwise, provided the testPath does not begin with
the afterEach-hook marker, the aggregator throws the mismatched-step
error; afterEach-marked events are instead skipped silently. -/
theorem processEnd_unmatched (ft : Int) (s : AggState) (e : StepEvent)
    (c : Command) (ti : Nat)
    (hev : e.event = .stepEnd) (hc : e.command = some c)
    (hti : findTestForStep s.tests e = some ti)
    (hnone : findMatchingStep s e c = none) :
    (c.id ∈ s.skippedStepIds →
       processEvent ft s e = .ok (resolveState s e)) ∧
    (c.id ∉ s.skippedStepIds → e.test.head? ≠ some AFTER_EACH_HOOK →
       processEvent ft s e = .error .mismatchedStep) := by
  have hcur : (resolveState s e).currentTest = some ti := hti
  have hsk : (resolveState s e).skippedStepIds = s.skippedStepIds := rfl
  constructor
  · intro hmem
    unfold processEvent
    simp only [hcur, hev]
    unfold processEnd
    simp only [hc, findMatchingStep_resolveState, hnone, Option.isNone_none,
      Bool.true_and, hsk]
    rw [if_pos (by simpa using hmem)]
  · intro hmem hhead
    unfold processEvent
    simp only [hcur, hev]
    unfold processEnd
    simp only [hc, findMatchingStep_resolveState, hnone, Option.isNone_none,
      Bool.true_and, hsk]
    rw [if_neg (by simpa using hmem), if_neg (by simpa using hhead)]

/-- States and events for the C6 witness. -/
def c6Test : Test := ⟨"T", ["T"], "passed", "f", 0, [], none⟩

def c6End : StepEvent :=
  ⟨.stepEnd, 5, ["T"], "f", some ⟨"x", none, none, "click", []⟩,
   none, none, none⟩

def c6SkipState : AggState := ⟨[c6Test], [], ["x"], none, none⟩

def c6CleanState : AggState := ⟨[c6Test], [], [], none, none⟩

/-- Witness for C6 (amended): with the id skipped the end event is
silently ignored; with a clean skip set it throws the mismatched-step
error. -/
theorem processEnd_unmatched_witness :
    processEvent 0 c6SkipState c6End = .ok (resolveState c6SkipState c6End) ∧
    processEvent 0 c6CleanState c6End = .error .mismatchedStep :=
  ⟨(processEnd_unmatched 0 c6SkipState c6End ⟨"x", none, none, "click", []⟩ 0
      rfl rfl (by decide) (by decide)).1 (by decide),
   (processEnd_unmatched 0 c6CleanState c6End ⟨"x", none, none, "click", []⟩ 0
      rfl rfl (by decide) (by decide)).2 (by decide) (by decide)⟩

/-! ## Claim C9 -/

theorem getElem?_modifyAt_self {l : List α} {i : Nat} {f : α → α} {a : α}
    (h : l[i]? = some a) : (modifyAt l i f)[i]? = some (f a) := by
  unfold modifyAt
  rw [h]
  exact List.getElem?_set_self (by rw [List.getElem?_eq_some] at h; exact h.1)

/-- Events for the C9 counterexample: a started assert step whose
matching assert `step:end` carries new args, all under the
afterEach-hook marker. -/
def c9Events : List StepEvent :=
  [⟨.testStart, 0, [AFTER_EACH_HOOK], "f", none, none, none, none⟩,
   ⟨.start, 5, [AFTER_EACH_HOOK], "f",
    some ⟨"a", none, none, "assert", [.prim "old"]⟩, none, none, none⟩,
   ⟨.stepEnd, 7, [AFTER_EACH_HOOK], "f",
    some ⟨"a", none, none, "assert", [.prim "new"]⟩, none, none, none⟩]

/-- Claim C9 counterexample: a `step:end` that matches an in-progress
step and whose command name is "assert" does NOT replace the step's args
(nor set its duration) when the testPath starts with the afterEach-hook
marker — the afterEach `continue` skips end processing entirely, so the
"exactly when assert" part of the claim fails there. -/
theorem assert_args_afterEach_counterexample :
    groupStepsByTest c9Events 0 =
      .ok [⟨AFTER_EACH_HOOK, [AFTER_EACH_HOOK], "passed", "f", 0,
            [⟨"a", none, "assert", [.prim "old"], none, 5, "other", none,
              none, none, []⟩], none⟩] ∧
    ([Arg.prim "old"] : List Arg) ≠ [Arg.prim "new"] := by
  decide

/-- Claim C9 (amended): for a `step:end` event that matches an
in-progress step and whose testPath does not begin with the
afterEach-hook marker, processing updates exactly the matched step —
all other tests and steps keep their values — and on the matched step it
changes only `duration` (set to a value) and `error` (overwritten from
the event), plus `args` exactly when the end command's name is "assert";
`id`, `parentId`, `name`, `commandId`, `category`, `hook`,
`relativeStartTime` and `assertIds` are unchanged. -/
theorem processEnd_matched_frame (ft : Int) (s : AggState) (e : StepEvent)
    (c : Command) (pc : Command) (ti : Nat) (item : StackItem)
    (hev : e.event = .stepEnd) (hc : e.command = some c)
    (hhead : e.test.head? ≠ some AFTER_EACH_HOOK)
    (hti : findTestForStep s.tests e = some ti)
    (hitem : findMatchingStep s e c = some item)
    (hpc : item.event.command = some pc) (hpcid : pc.id = c.id) :
    processEvent ft s e = .ok (endUpdate ft (resolveState s e) ti e c item) ∧
    (∀ j, j ≠ item.testIdx →
       (endUpdate ft (resolveState s e) ti e c item).tests[j]? = s.tests[j]?) ∧
    (∀ t, s.tests[item.testIdx]? = some t →
       (endUpdate ft (resolveState s e) ti e c item).tests[item.testIdx]? =
         some { t with
                steps := (modifyAt t.steps item.stepIdx
                  (endStepUpdate ft (resolveState s e) ti e c)) } ∧
       (∀ k, k ≠ item.stepIdx →
          (modifyAt t.steps item.stepIdx
            (endStepUpdate ft (resolveState s e) ti e c))[k]? = t.steps[k]?) ∧
       (∀ st, t.steps[item.stepIdx]? = some st →
          (modifyAt t.steps item.stepIdx
            (endStepUpdate ft (resolveState s e) ti e c))[item.stepIdx]? =
            some (endStepUpdate ft (resolveState s e) ti e c st))) ∧
    (∀ st : TestStep,
       (endStepUpdate ft (resolveState s e) ti e c st).id = st.id ∧
       (endStepUpdate ft (resolveState s e) ti e c st).parentId = st.parentId ∧
       (endStepUpdate ft (resolveState s e) ti e c st).name = st.name ∧
       (endStepUpdate ft (resolveState s e) ti e c st).commandId = st.commandId ∧
       (endStepUpdate ft (resolveState s e) ti e c st).category = st.category ∧
       (endStepUpdate ft (resolveState s e) ti e c st).hook = st.hook ∧
       (endStepUpdate ft (resolveState s e) ti e c st).relativeStartTime =
         st.relativeStartTime ∧
       (endStepUpdate ft (resolveState s e) ti e c st).assertIds = st.assertIds ∧
       (c.name = "assert" →
          (endStepUpdate ft (resolveState s e) ti e c st).args = c.args) ∧
       (c.name ≠ "assert" →
          (endStepUpdate ft (resolveState s e) ti e c st).args = st.args) ∧
       (endStepUpdate ft (resolveState s e) ti e c st).error = e.error ∧
       ∃ d, (endStepUpdate ft (resolveState s e) ti e c st).duration = some d) := by
  have hcur : (resolveState s e).currentTest = some ti := hti
  refine ⟨?_, ?_, ?_, ?_⟩
  · unfold processEvent
    simp only [hcur, hev]
    unfold processEnd
    simp only [hc, findMatchingStep_resolveState, hitem]
    rw [if_neg (by simp), if_neg (by simpa using hhead)]
    simp only [hpc]
    rw [if_neg (by simp [hpcid])]
  · intro j hj
    unfold endUpdate
    simp only
    rw [getElem?_modifyAt_ne _ _ _ _ (fun h => hj h.symm)]
    rfl
  · intro t ht
    have ht2 : (resolveState s e).tests[item.testIdx]? = some t := ht
    refine ⟨?_, ?_, ?_⟩
    · unfold endUpdate
      simp only
      rw [getElem?_modifyAt_self ht2]
    · intro k hk
      rw [getElem?_modifyAt_ne _ _ _ _ (fun h => hk h.symm)]
    · intro st hst
      rw [getElem?_modifyAt_self hst]
  · intro st
    unfold endStepUpdate
    by_cases hA : c.name = "assert"
    · rw [if_pos (by simp [hA])]
      exact ⟨rfl, rfl, rfl, rfl, rfl, rfl, rfl, rfl, fun _ => rfl,
        fun h => absurd hA h, rfl, ⟨_, rfl⟩⟩
    · rw [if_neg (by simp [hA])]
      exact ⟨rfl, rfl, rfl, rfl, rfl, rfl, rfl, rfl, fun h => absurd h hA,
        fun _ => rfl, rfl, ⟨_, rfl⟩⟩

/-- States and events for the C9 witness. -/
def c9Step : TestStep :=
  ⟨"x", none, "assert", [.prim "old"], none, 2, "other", none, none, none, []⟩

def c9Test : Test := ⟨"T", ["T"], "passed", "f", 0, [c9Step], none⟩

def c9StartEv : StepEvent :=
  ⟨.start, 2, ["T"], "f", some ⟨"x", none, none, "assert", [.prim "old"]⟩,
   none, none, none⟩

def c9State : AggState := ⟨[c9Test], [⟨c9StartEv, 0, 0⟩], [], none, none⟩

def c9EndEv : StepEvent :=
  ⟨.stepEnd, 7, ["T"], "f", some ⟨"x", none, none, "assert", [.prim "new"]⟩,
   none, none, none⟩

def c9Cmd : Command := ⟨"x", none, none, "assert", [.prim "new"]⟩

def c9Item : StackItem := ⟨c9StartEv, 0, 0⟩

/-- Witness for C9 (amended): a matched assert end outside afterEach goes
through `endUpdate`, replaces the args with the end event's args, and
keeps the step id. -/
theorem processEnd_matched_frame_witness :
    processEvent 0 c9State c9EndEv =
      .ok (endUpdate 0 (resolveState c9State c9EndEv) 0 c9EndEv c9Cmd c9Item) ∧
    (endStepUpdate 0 (resolveState c9State c9EndEv) 0 c9EndEv c9Cmd c9Step).args =
      c9Cmd.args ∧
    (endStepUpdate 0 (resolveState c9State c9EndEv) 0 c9EndEv c9Cmd c9Step).id =
      c9Step.id := by
  have h := processEnd_matched_frame 0 c9State c9EndEv c9Cmd
    ⟨"x", none, none, "assert", [.prim "old"]⟩ 0 c9Item rfl rfl (by decide)
    (by decide) (by decide) rfl rfl
  exact ⟨h.1, (h.2.2.2 c9Step).2.2.2.2.2.2.2.2.1 rfl, (h.2.2.2 c9Step).1⟩

/-! ## Claim C10 -/

/-- The ids of the steps of the test at index `ti`. -/
def testStepIds (tests : List Test) (ti : Nat) : List String :=
  match tests[ti]? with
  | some t => t.steps.map fun st => st.id
  | none => []

/-- The group invariant: an active group's recorded parent id is the id
of a step that already belongs to the current test. -/
def GroupInv (s : AggState) : Prop :=
  ∀ g p, s.activeGroup = some (g, p) →
    ∃ ti, s.currentTest = some ti ∧ p ∈ testStepIds s.tests ti

theorem groupInv_resolveState {s : AggState} (e : StepEvent) (h : GroupInv s) :
    GroupInv (resolveState s e) := by
  intro g p hg
  unfold resolveState at hg
  simp only at hg
  by_cases hcur : s.currentTest = findTestForStep s.tests e
  · rw [if_pos hcur] at hg
    obtain ⟨ti, hti, hp⟩ := h g p hg
    exact ⟨ti, hcur.symm.trans hti, hp⟩
  · rw [if_neg hcur] at hg
    cases hg

theorem findTestForStep_lt {tests : List Test} {e : StepEvent} {ti : Nat}
    (h : findTestForStep tests e = some ti) : ti < tests.length := by
  unfold findTestForStep at h
  rcases hlast : e.test.getLast? with _ | a
  · rw [hlast] at h
    cases h
  · rw [hlast] at h
    have := List.findIdx?_eq_some_iff_findIdx_eq.mp h
    omega

theorem steps_ids_modifyAt (l : List TestStep) (j : Nat) (g : TestStep → TestStep)
    (hg : ∀ x, (g x).id = x.id) :
    (modifyAt l j g).map (fun st => st.id) = l.map fun st => st.id := by
  unfold modifyAt
  rcases hx : l[j]? with _ | a
  · rfl
  · rw [List.map_set, hg a]
    refine List.ext_getElem? fun k => ?_
    by_cases hk : k = j
    · subst hk
      rw [List.getElem?_set_self
        (by rw [List.length_map]; rw [List.getElem?_eq_some] at hx; exact hx.1),
        List.getElem?_map, hx]
      rfl
    · rw [List.getElem?_set_ne fun hh => hk hh.symm]

theorem modifyAt_of_none {l : List α} {i : Nat} (f : α → α) (h : l[i]? = none) :
    modifyAt l i f = l := by
  unfold modifyAt
  rw [h]

theorem testStepIds_linkAssert (tests : List Test) (ti : Nat) (c : Command)
    (i : Nat) : testStepIds (linkAssert tests ti c) i = testStepIds tests i := by
  unfold linkAssert
  rcases c.commandId with _ | cid
  · rfl
  · dsimp only
    by_cases hcid : cid ≠ ""
    · rw [if_pos hcid]
      unfold testStepIds
      by_cases hi : ti = i
      · subst hi
        rcases hx : tests[ti]? with _ | t
        · rw [modifyAt_of_none _ hx, hx]
        · rw [getElem?_modifyAt_self hx]
          rcases hj : t.steps.findIdx? (fun st => st.id == cid) with _ | j
          · rw [hj]
          · rw [hj]
            dsimp only
            exact steps_ids_modifyAt t.steps j _ fun x => rfl
      · rw [getElem?_modifyAt_ne _ _ _ _ hi]
    · rw [if_neg hcid]

theorem testStepIds_modifyAt_steps (tests : List Test) (ti : Nat) (i : Nat)
    (g : TestStep → TestStep) (hg : ∀ x, (g x).id = x.id) (j : Nat) :
    testStepIds (modifyAt tests ti fun t =>
      { t with steps := (modifyAt t.steps j g) }) i = testStepIds tests i := by
  unfold testStepIds
  by_cases hi : ti = i
  · subst hi
    rcases hx : tests[ti]? with _ | t
    · rw [modifyAt_of_none _ hx, hx]
    · rw [getElem?_modifyAt_self hx]
      exact steps_ids_modifyAt t.steps j g hg
  · rw [getElem?_modifyAt_ne _ _ _ _ hi]

theorem testStepIds_push {tests : List Test} {ti : Nat} {t : Test}
    (stp : TestStep) (hx : tests[ti]? = some t) :
    testStepIds (modifyAt tests ti fun t0 =>
      { t0 with steps := t0.steps ++ [stp] }) ti =
      testStepIds tests ti ++ [stp.id] := by
  unfold testStepIds
  rw [getElem?_modifyAt_self hx, hx]
  simp

theorem testStepIds_modifyAt_keep (tests : List Test) (ti : Nat) (i : Nat)
    (f : Test → Test) (hf : ∀ t, (f t).steps = t.steps) :
    testStepIds (modifyAt tests ti f) i = testStepIds tests i := by
  unfold testStepIds
  by_cases hi : ti = i
  · subst hi
    rcases hx : tests[ti]? with _ | t
    · rw [modifyAt_of_none _ hx, hx]
    · rw [getElem?_modifyAt_self hx]
      dsimp only
      rw [hf t]
  · rw [getElem?_modifyAt_ne _ _ _ _ hi]

theorem endStepUpdate_id (ft : Int) (s : AggState) (ti : Nat) (step : StepEvent)
    (c : Command) (st : TestStep) :
    (endStepUpdate ft s ti step c st).id = st.id := by
  unfold endStepUpdate
  split <;> rfl

/-- Claim C10: the active group is cleared whenever the test resolved for
the current event differs from the previous event's test (part 1); the
group invariant — an active group's parent id names a step of the current
test — is preserved by every successful event (part 2); consequently a
newly created step whose parentId was taken from the active group points
at a step of the very test it is attached to, never at a group opened
under a different test (part 3). -/
theorem activeGroup_cleared_and_parent_in_same_test (ft : Int) (s : AggState)
    (e : StepEvent) (s' : AggState) (hinv : GroupInv s)
    (hok : processEvent ft s e = .ok s') :
    (s.currentTest ≠ findTestForStep s.tests e →
       (resolveState s e).activeGroup = none) ∧
    GroupInv s' ∧
    (∀ ti t t' st p, s'.currentTest = some ti → s.tests[ti]? = some t →
       s'.tests[ti]? = some t' → t'.steps.length = t.steps.length + 1 →
       t'.steps.getLast? = some st → st.parentId = some p →
       p ∈ t.steps.map fun st2 => st2.id) := by
  have hinvr : GroupInv (resolveState s e) := groupInv_resolveState e hinv
  refine ⟨?_, ?_⟩
  · intro hne
    unfold resolveState
    simp only
    rw [if_neg hne]
  rcases processEvent_ok_cases ft s e s' hok with
    ⟨tiR, hcur, hc | ⟨hev, hskip, hc⟩ | ⟨hev, c, hcmd, hns, hc⟩ |
      ⟨hev, c, item, hcmd, hitem, hc⟩ | ⟨hev, hc⟩⟩
  · -- s' = resolveState s e
    subst hc
    refine ⟨hinvr, ?_⟩
    intro ti t t' st p _ h2 h3 h4 _ _
    have h3' : s.tests[ti]? = some t' := h3
    rw [h2] at h3'
    injection h3' with hh
    rw [hh] at h4
    omega
  · -- skip branch: only skippedStepIds changes
    subst hc
    constructor
    · intro g p hg
      exact hinvr g p hg
    · intro ti t t' st p _ h2 h3 h4 _ _
      have h3' : s.tests[ti]? = some t' := h3
      rw [h2] at h3'
      injection h3' with hh
      rw [hh] at h4
      omega
  · -- startInsert
    subst hc
    have hlt : tiR < (resolveState s e).tests.length := findTestForStep_lt hcur
    have hlt1 : tiR < (linkAssert (resolveState s e).tests tiR c).length := by
      rw [length_linkAssert]
      exact hlt
    have hxL : (linkAssert (resolveState s e).tests tiR c)[tiR]? =
        some ((linkAssert (resolveState s e).tests tiR c)[tiR]) :=
      List.getElem?_eq_getElem hlt1
    have hids : testStepIds (startInsert ft (resolveState s e) tiR e c).tests tiR =
        testStepIds (resolveState s e).tests tiR ++ [c.id] := by
      unfold startInsert
      simp only
      rw [testStepIds_push _ hxL, testStepIds_linkAssert]
      rfl
    have hcur' : (startInsert ft (resolveState s e) tiR e c).currentTest =
        some tiR := hcur
    constructor
    · intro g p hg
      have hg' : (resolveGroup (resolveState s e) c).2 = some (g, p) := hg
      unfold resolveGroup at hg'
      rcases hA : (resolveState s e).activeGroup with _ | ⟨g0, p0⟩ <;>
        rw [hA] at hg'
      · rcases hG : c.groupId with _ | g2 <;> rw [hG] at hg'
        · cases hg'
        · dsimp only at hg'
          by_cases hg2 : g2 ≠ ""
          · rw [if_pos hg2] at hg'
            injection hg' with hpair
            injection hpair with hgq hpq
            refine ⟨tiR, hcur', ?_⟩
            rw [hids, ← hpq]
            exact List.mem_append.mpr (Or.inr (List.mem_singleton_self _))
          · rw [if_neg hg2] at hg'
            cases hg'
      · obtain ⟨ti0, hti0, hp0⟩ := hinvr g0 p0 hA
        have hti0' : ti0 = tiR := by
          rw [hcur] at hti0
          injection hti0 with hh
          exact hh.symm
        rw [hti0'] at hp0
        rcases hG : c.groupId with _ | g2 <;> rw [hG] at hg'
        · dsimp only at hg'
          injection hg' with hpair
          injection hpair with hgq hpq
          refine ⟨tiR, hcur', ?_⟩
          rw [hids, ← hpq]
          exact List.mem_append.mpr (Or.inl hp0)
        · dsimp only at hg'
          by_cases hg2 : g2 = g0
          · rw [if_pos hg2] at hg'
            injection hg' with hpair
            injection hpair with hgq hpq
            refine ⟨tiR, hcur', ?_⟩
            rw [hids, ← hpq]
            exact List.mem_append.mpr (Or.inl hp0)
          · rw [if_neg hg2] at hg'
            by_cases hg3 : g2 ≠ ""
            · rw [if_pos hg3] at hg'
              injection hg' with hpair
              injection hpair with hgq hpq
              refine ⟨tiR, hcur', ?_⟩
              rw [hids, ← hpq]
              exact List.mem_append.mpr (Or.inr (List.mem_singleton_self _))
            · rw [if_neg hg3] at hg'
              injection hg' with hpair
              injection hpair with hgq hpq
              refine ⟨tiR, hcur', ?_⟩
              rw [hids, ← hpq]
              exact List.mem_append.mpr (Or.inl hp0)
    · intro ti t t' st p h1 h2 h3 _ h5 h6
      have hti : ti = tiR := by
        have h1' : (resolveState s e).currentTest = some ti := h1
        rw [hcur] at h1'
        injection h1' with hh
        exact hh.symm
      subst hti
      have h3' : (modifyAt (linkAssert (resolveState s e).tests ti c) ti
          fun t0 => { t0 with
            steps := t0.steps ++ [buildStep ft (resolveState s e) ti e c] })[ti]? =
          some t' := h3
      rw [getElem?_modifyAt_self hxL] at h3'
      injection h3' with hh
      rw [← hh] at h5
      simp only [List.getLast?_concat] at h5
      injection h5 with hst
      have hpar : (resolveGroup (resolveState s e) c).1 = some p := by
        rw [← hst] at h6
        exact h6
      unfold resolveGroup at hpar
      rcases hA : (resolveState s e).activeGroup with _ | ⟨g0, p0⟩ <;>
        rw [hA] at hpar
      · rcases hG : c.groupId with _ | g2 <;> rw [hG] at hpar
        · cases hpar
        · dsimp only at hpar
          by_cases hg2 : g2 ≠ ""
          · rw [if_pos hg2] at hpar
            cases hpar
          · rw [if_neg hg2] at hpar
            cases hpar
      · rcases hG : c.groupId with _ | g2 <;> rw [hG] at hpar
        · cases hpar
        · dsimp only at hpar
          by_cases hg2 : g2 = g0
          · rw [if_pos hg2] at hpar
            injection hpar with hpq
            obtain ⟨ti0, hti0, hp0⟩ := hinvr g0 p0 hA
            have hti0' : ti0 = ti := by
              rw [hcur] at hti0
              injection hti0 with hh2
              exact hh2.symm
            rw [hti0'] at hp0
            have hp0' : p0 ∈ testStepIds s.tests ti := hp0
            unfold testStepIds at hp0'
            rw [h2] at hp0'
            rw [← hpq]
            exact hp0'
          · rw [if_neg hg2] at hpar
            by_cases hg3 : g2 ≠ ""
            · rw [if_pos hg3] at hpar
              cases hpar
            · rw [if_neg hg3] at hpar
              cases hpar
  · -- endUpdate
    subst hc
    have hids : ∀ i, testStepIds (endUpdate ft (resolveState s e) tiR e c item).tests i =
        testStepIds (resolveState s e).tests i := by
      intro i
      unfold endUpdate
      simp only
      exact testStepIds_modifyAt_steps (resolveState s e).tests item.testIdx i
        (endStepUpdate ft (resolveState s e) tiR e c)
        (fun x => endStepUpdate_id ft (resolveState s e) tiR e c x) item.stepIdx
    constructor
    · intro g p hg
      obtain ⟨ti0, hti0, hp0⟩ := hinvr g p hg
      refine ⟨ti0, hti0, ?_⟩
      rw [hids ti0]
      exact hp0
    · intro ti t t' st p _ h2 h3 h4 _ _
      have h3' : (modifyAt (resolveState s e).tests item.testIdx fun t0 =>
          { t0 with steps := (modifyAt t0.steps item.stepIdx
            (endStepUpdate ft (resolveState s e) tiR e c)) })[ti]? = some t' := h3
      by_cases hit : item.testIdx = ti
      · subst hit
        have h2' : (resolveState s e).tests[item.testIdx]? = some t := h2
        rw [getElem?_modifyAt_self h2'] at h3'
        injection h3' with hh
        rw [← hh] at h4
        simp only [length_modifyAt] at h4
        omega
      · rw [getElem?_modifyAt_ne _ _ _ _ hit] at h3'
        have h2' : (resolveState s e).tests[ti]? = some t := h2
        rw [h2'] at h3'
        injection h3' with hh
        rw [← hh] at h4
        omega
  · -- testEndUpdate
    subst hc
    have hids : ∀ i, testStepIds (testEndUpdate ft (resolveState s e) tiR e).tests i =
        testStepIds (resolveState s e).tests i := by
      intro i
      unfold testEndUpdate
      simp only
      exact testStepIds_modifyAt_keep (resolveState s e).tests tiR i _
        (fun t => rfl)
    constructor
    · intro g p hg
      obtain ⟨ti0, hti0, hp0⟩ := hinvr g p hg
      refine ⟨ti0, hti0, ?_⟩
      rw [hids ti0]
      exact hp0
    · intro ti t t' st p _ h2 h3 h4 _ _
      have h3' : (modifyAt (resolveState s e).tests tiR fun t0 =>
          { t0 with duration := some (toRelativeTime e.timestamp ft -
              t0.relativeStartTime) })[ti]? = some t' := h3
      by_cases hit : tiR = ti
      · subst hit
        have h2' : (resolveState s e).tests[tiR]? = some t := h2
        rw [getElem?_modifyAt_self h2'] at h3'
        injection h3' with hh
        rw [← hh] at h4
        dsimp only at h4
        omega
      · rw [getElem?_modifyAt_ne _ _ _ _ hit] at h3'
        have h2' : (resolveState s e).tests[ti]? = some t := h2
        rw [h2'] at h3'
        injection h3' with hh
        rw [← hh] at h4
        omega

/-- States and events for the C10 witness. -/
def c10Step : TestStep :=
  ⟨"x", none, "click", [], none, 1, "other", none, none, none, []⟩

def c10Test : Test := ⟨"T", ["T"], "passed", "f", 0, [c10Step], none⟩

def c10State : AggState := ⟨[c10Test], [], [], some ("g", "x"), some 0⟩

def c10Event : StepEvent :=
  ⟨.start, 5, ["T"], "f", some ⟨"y", some "g", none, "click", []⟩,
   none, none, none⟩

def c10NewStep : TestStep :=
  ⟨"y", some "x", "click", [], none, 5, "other", none, none, none, []⟩

def c10After : AggState :=
  ⟨[⟨"T", ["T"], "passed", "f", 0, [c10Step, c10NewStep], none⟩],
   [⟨c10Event, 0, 1⟩], [], some ("g", "x"), some 0⟩

theorem c10StateInv : GroupInv c10State := by
  intro g p h
  injection h with h1
  injection h1 with hg hp
  subst hg
  refine ⟨0, rfl, ?_⟩
  rw [← hp]
  decide

/-- Witness for C10: a step:start reusing the active group under the same
test receives a parentId that names a step already in that test, and the
group invariant persists. -/
theorem activeGroup_cleared_and_parent_in_same_test_witness :
    "x" ∈ c10Test.steps.map (fun st2 => st2.id) ∧ GroupInv c10After := by
  have h := activeGroup_cleared_and_parent_in_same_test 0 c10State c10Event
    c10After c10StateInv (by decide)
  exact ⟨h.2.2 0 c10Test
    ⟨"T", ["T"], "passed", "f", 0, [c10Step, c10NewStep], none⟩
    c10NewStep "x" rfl (by decide) (by decide) (by decide) (by decide) rfl,
    h.2.1⟩

end ReplayCli
